import Mathlib

/-!
Shallow embedding of the claim-relevant parts of the gabelstaplerwm
repository (src/src/wm/client.rs, src/src/wm/config.rs and
src/gwm-kbd/src/kbd/desc.rs), together with theorems settling the
frozen claims about the natural-language specification.

Machine integers (`Window = xproto::Window = u32`, `Crtc = u32`,
`u8` tagset indices, modifier masks) are modelled as `Nat`; the modelled
operations never overflow them except where noted (the `i16 → u32` cast in
`ScreenSet::update`, which is modelled explicitly).  `HashMap`s are
modelled as association lists (iteration order is irrelevant to every
modelled operation: each entry is transformed independently), and
`BTreeSet<Tag>` is modelled as `Finset Tag` (only membership, insertion,
removal, size and intersection tests are used by the source).
-/

namespace GabelWM

/-- The `Tag` enumeration from src/src/wm/config.rs. `Work(u8)` carries a
number, modelled as `Nat`. -/
inductive Tag
  | Web
  | Marks
  | Work (n : Nat)
  | Media
  | Chat
  | Logs
  | Mon
deriving DecidableEq, Repr

/-- X window id (`xproto::Window`, a `u32`). -/
abbrev Window := Nat

/-- X atom (`xproto::Atom`, a `u32`). -/
abbrev Atom := Nat

/-- CRTC id (`randr::Crtc`, a `u32`). -/
abbrev Crtc := Nat

/-- `ClientProps` from src/src/wm/client.rs: window type, state, title and
classes. The Rust field `class` is a Lean keyword, hence `wm_class`. -/
structure ClientProps where
  window_type : Atom
  state : List Atom
  name : String
  wm_class : List String
deriving DecidableEq, Repr

/-- `Client` from src/src/wm/client.rs: a window, its properties, and the
set of tags it is visible on. -/
structure Client where
  window : Window
  props : ClientProps
  tags : Finset Tag
deriving DecidableEq

/-- `Client::new`. -/
def Client.new (window : Window) (tags : Finset Tag) (props : ClientProps) : Client :=
  { window := window, props := props, tags := tags }

/-- `Client::set_tags`: replace the tag set by the set of elements of the
slice, unless the slice is empty (`if tags.len() > 0`). -/
def Client.set_tags (c : Client) (tags : List Tag) : Client :=
  if tags.length > 0 then { c with tags := tags.toFinset } else c

/-- `Client::toggle_tag`: remove the tag if present and not the only one
(returning `Some(true)`), refuse if it is the only one (returning `None`),
insert it if absent (returning `Some(false)`). Returns the result paired
with the updated client (the source mutates `self`). -/
def Client.toggle_tag (c : Client) (tag : Tag) : Option Bool × Client :=
  if tag ∈ c.tags then
    if 1 < c.tags.card then
      (some true, { c with tags := c.tags.erase tag })
    else
      (none, c)
  else
    (some false, { c with tags := insert tag c.tags })

/-- `Client::match_tags`: whether the client's tags intersect the given
set (`self.tags.intersection(tags).next().is_some()`). -/
def Client.match_tags (c : Client) (tags : Finset Tag) : Bool :=
  decide ((c.tags ∩ tags) ≠ ∅)

/-- `SplitDirection` from src/src/wm/layout.rs (used by client.rs; the
variant names are fixed by their uses in client.rs). -/
inductive SplitDirection
  | Vertical
  | Horizontal
deriving DecidableEq, Repr

/-- `SubsetError` from src/src/wm/client.rs. -/
inductive SubsetError
  | WrongKindOfNode
  | WrongParent
  | Orphan
deriving DecidableEq, Repr

/-- `SubsetResult<A> = Result<A, SubsetError>`. -/
abbrev SubsetResult (A : Type) := Except SubsetError A

/-- Decidable equality for `Except`, used to compare `SubsetResult` values
the way the source compares `Result` values with `==`. -/
instance {ε α : Type} [DecidableEq ε] [DecidableEq α] : DecidableEq (Except ε α) := fun x y =>
  match x, y with
  | .ok a, .ok b => decidable_of_iff (a = b) (by simp)
  | .error a, .error b => decidable_of_iff (a = b) (by simp)
  | .ok _, .error _ => isFalse (fun h => Except.noConfusion h)
  | .error _, .ok _ => isFalse (fun h => Except.noConfusion h)

/-- `SubsetEntry` from src/src/wm/client.rs: an arena slot holding either a
split node (parent, direction, ordered children) or a client leaf
(parent, window). Parents and children are arena slot numbers. -/
inductive SubsetEntry
  | split (parent : Option Nat) (dir : SplitDirection) (children : List Nat)
  | client (parent : Option Nat) (window : Window)
deriving DecidableEq, Repr

/-- `SubsetEntry::get_parent`. -/
def SubsetEntry.get_parent : SubsetEntry → Option Nat
  | .split parent _ _ => parent
  | .client parent _ => parent

/-- `SubsetEntry::set_parent` (the source mutates in place; we return the
updated entry). -/
def SubsetEntry.set_parent : SubsetEntry → Option Nat → SubsetEntry
  | .split _ dir children, new_parent => .split new_parent dir children
  | .client _ window, new_parent => .client new_parent window

/-- `SubsetEntry::get_children`. -/
def SubsetEntry.get_children : SubsetEntry → SubsetResult (List Nat)
  | .split _ _ children => .ok children
  | _ => .error .WrongKindOfNode

/-- `SubsetEntry::find_child`: position of `child` in the children list, or
`WrongParent` if absent, or `WrongKindOfNode` on a client leaf. -/
def SubsetEntry.find_child (e : SubsetEntry) (child : Nat) : SubsetResult Nat :=
  match e.get_children with
  | .error err => .error err
  | .ok children =>
    match children.findIdx? (fun c => c == child) with
    | some pos => .ok pos
    | none => .error .WrongParent

/-- `SubsetEntry::remove_child`: retain all children different from
`child`. On a client leaf the source returns `Err(WrongKindOfNode)` without
mutating; both call sites discard that error, so we return the entry
unchanged in that case. -/
def SubsetEntry.remove_child (e : SubsetEntry) (child : Nat) : SubsetEntry :=
  match e with
  | .split parent dir children => .split parent dir (children.filter (fun c => c ≠ child))
  | e => e

/-- `SubsetTree` from src/src/wm/client.rs. The `vec_arena::Arena` is
modelled as an append-only list of entries: none of the modelled
operations ever frees a slot (`SubsetTree::remove` is an empty stub in the
source and `remove_subtree` is not modelled), so `Arena::insert` always
allocates the next fresh slot, i.e. the current length. The `layout` field
(a boxed trait object) is not read by any modelled operation and is
omitted. -/
structure SubsetTree where
  arena : List SubsetEntry
  root : Option Nat
  focused : Option Nat
  selected : Option Nat
deriving DecidableEq, Repr

/-- `SubsetTree::new`: empty arena, no root, no focused, no selected
node. -/
def SubsetTree.new : SubsetTree :=
  { arena := [], root := none, focused := none, selected := none }

/-- Arena indexing `self.arena[i]`. Out-of-bounds indexing panics in the
source; every modelled execution stays in bounds, and the default value is
never observed there. -/
def SubsetTree.entry (t : SubsetTree) (i : Nat) : SubsetEntry :=
  t.arena.getD i (.client none 0)

/-- Arena in-place update `self.arena[i] = e`. -/
def SubsetTree.setEntry (t : SubsetTree) (i : Nat) (e : SubsetEntry) : SubsetTree :=
  { t with arena := t.arena.set i e }

/-- `SubsetTree::add_client_node`: insert a fresh parentless client leaf
into the arena, returning its slot. -/
def SubsetTree.add_client_node (t : SubsetTree) (client : Window) : SubsetTree × Nat :=
  ({ t with arena := t.arena ++ [.client none client] }, t.arena.length)

/-- `SubsetTree::add_inner_node`: insert a fresh parentless split node with
no children into the arena, returning its slot. -/
def SubsetTree.add_inner_node (t : SubsetTree) (split : SplitDirection) : SubsetTree × Nat :=
  ({ t with arena := t.arena ++ [.split none split []] }, t.arena.length)

/-- `SubsetTree::get_parent`: the parent slot of `node` together with
`node`'s position among its children; `Orphan` if `node` has no parent. -/
def SubsetTree.get_parent (t : SubsetTree) (node : Nat) : SubsetResult (Nat × Nat) :=
  match (t.entry node).get_parent with
  | some parent =>
    match (t.entry parent).find_child node with
    | .ok index => .ok (parent, index)
    | .error err => .error err
  | none => .error .Orphan

/-- `SubsetTree::add_child`: if `parent` does not yet list `child`
(`find_child` returns `WrongParent`), insert `child` into `parent`'s
children at `pos` (append if `pos > len`), remove `child` from its old
parent's children if it had one, and set `child`'s parent to `parent`.
The source's `get_children_mut().unwrap()` cannot fail on that path since
`find_child` returned `WrongParent` only for split nodes; the impossible
branch is the identity. -/
def SubsetTree.add_child (t : SubsetTree) (parent child pos : Nat) : SubsetTree :=
  if (t.entry parent).find_child child = .error .WrongParent then
    let t1 :=
      match t.entry parent with
      | .split p dir children =>
        let children :=
          if pos > children.length then children ++ [child]
          else children.insertIdx pos child
        t.setEntry parent (.split p dir children)
      | _ => t
    let t2 :=
      match (t1.entry child).get_parent with
      | some old_parent => t1.setEntry old_parent ((t1.entry old_parent).remove_child child)
      | none => t1
    t2.setEntry child ((t2.entry child).set_parent (some parent))
  else t

/-- `InsertBias` from src/src/wm/client.rs. -/
inductive InsertBias
  | BelowLeft
  | BelowRight
  | NextToLeft
  | NextToRight
deriving DecidableEq, Repr

/-- `SubsetTree::add`: allocate a leaf for `client`; if there is a
reference node (`selected` or else `focused`), place the leaf relative to
it according to `direction` (the match arms mirror the source, in order);
finally focus the new leaf if `focus` is set or nothing was focused.
The source's `unreachable!()` arm (a `NextTo*` insertion whose reference
has an inconsistent parent link) is modelled as the identity; no modelled
execution reaches it. -/
def SubsetTree.add (t : SubsetTree) (client : Window) (focus : Bool)
    (direction : InsertBias) (split : SplitDirection) : SubsetTree :=
  let p := t.add_client_node client
  let t := p.1
  let node := p.2
  let t :=
    match t.selected.or t.focused with
    | none => t
    | some reference =>
      match t.get_parent reference, direction with
      | .ok (parent, index), .NextToLeft =>
        t.add_child parent node (index - 1)
      | .ok (parent, index), .NextToRight =>
        t.add_child parent node index
      | .error .Orphan, .NextToLeft | _, .BelowLeft =>
        let q := t.add_inner_node split
        let t := (q.1.add_child q.2 node 0)
        t.add_child q.2 reference 1
      | .error .Orphan, .NextToRight | _, .BelowRight =>
        let q := t.add_inner_node split
        let t := (q.1.add_child q.2 reference 0)
        t.add_child q.2 node 1
      | _, _ => t
  if focus || t.focused.isNone then { t with focused := some node } else t

/-- `SubsetTree::remove`: the source body is an empty `// TODO` stub, so
the call does nothing. -/
def SubsetTree.remove (t : SubsetTree) (window : Window) : SubsetTree :=
  let _ := window
  t

/-- `SubsetTree::get_focused`, which returns `Option<Window>` in the
source but panics (`unreachable!()`) on every path that would produce
`None`, including a `focused` field that is unset or designates a split
node. Modelled as `Except Unit Window`: `.error ()` is the panic (an
out-of-bounds `focused` slot also panics, at the arena indexing). -/
def SubsetTree.get_focused (t : SubsetTree) : Except Unit Window :=
  match t.focused.bind (fun id => t.arena.get? id) with
  | some (.client _ window) => .ok window
  | _ => .error ()

/-- Modelled from the spec: `WmCommand` lives in src/src/wm/window_system.rs,
which is not under src/. The spec (section 4.C) lists its variants; the
modelled operations only pass values of this type through without
inspecting them. -/
inductive WmCommand
  | NoCommand
  | Redraw
  | Focus (window : Window)
  | Kill (window : Window)
  | ModeSwitch
  | Quit
deriving DecidableEq, Repr

/-- Association-list lookup, modelling `HashMap::get`: the value of the
first (and in every modelled state, only) entry with the given key. -/
def alookup {α β : Type} [BEq α] (m : List (α × β)) (k : α) : Option β :=
  (m.find? (fun p => p.1 == k)).map (fun p => p.2)

/-- Association-list insert, modelling `HashMap::insert`: replace the
value under an existing key, else append a fresh entry. -/
def ainsert {α β : Type} [BEq α] (m : List (α × β)) (k : α) (v : β) : List (α × β) :=
  if m.any (fun p => p.1 == k) then
    m.map (fun p => if p.1 == k then (k, v) else p)
  else
    m ++ [(k, v)]

/-- `ClientSet` from src/src/wm/client.rs: all clients keyed by window,
and the per-tagset-key ordered subset trees. Both `HashMap`s are modelled
as association lists; all modelled operations treat the entries
independently, so iteration order is immaterial. -/
structure ClientSet where
  clients : List (Window × Client)
  order : List (Finset Tag × SubsetTree)
deriving DecidableEq

/-- `ClientSet::default()`: both maps empty. -/
def ClientSet.default : ClientSet :=
  { clients := [], order := [] }

/-- `ClientSet::get_client_by_window`. -/
def ClientSet.get_client_by_window (cs : ClientSet) (window : Window) : Option Client :=
  alookup cs.clients window

/-- `ClientSet::add`: for every `(tags, subset)` entry of `order` whose
tags the client matches, call `subset.add(window, true, NextToRight,
Vertical)`; then insert the client into `clients`. Note that the source
never reads `as_slave` in the body. -/
def ClientSet.add (cs : ClientSet) (client : Client) (as_slave : Bool) : ClientSet :=
  let _ := as_slave
  let window := client.window
  { clients := ainsert cs.clients window client
    order := cs.order.map (fun p =>
      if client.match_tags p.1 then
        (p.1, p.2.add window true .NextToRight .Vertical)
      else p) }

/-- `ClientSet::remove`: if a client is stored under `window`, remove it
and call `SubsetTree::remove` on every order entry, returning `true`;
otherwise return `false` and change nothing. -/
def ClientSet.remove (cs : ClientSet) (window : Window) : Bool × ClientSet :=
  if (alookup cs.clients window).isSome then
    (true,
     { clients := cs.clients.filter (fun p => p.1 ≠ window)
       order := cs.order.map (fun p => (p.1, p.2.remove window)) })
  else
    (false, cs)

/-- `ClientSet::update_client`: apply `func` to the stored client if
present (the closure mutates the client and returns a `WmCommand`; we
model it as `Client → Client × WmCommand`); afterwards, for every order
entry, remove the window if the updated client no longer matches the
entry's tags, else call `SubsetTree::add(window, false, NextToRight,
Vertical)`. Returns the closure's command (`None` when no client was
found) with the updated set. -/
def ClientSet.update_client (cs : ClientSet) (window : Window)
    (func : Client → Client × WmCommand) : Option WmCommand × ClientSet :=
  match alookup cs.clients window with
  | none => (none, cs)
  | some c =>
    let r := func c
    let client := r.1
    (some r.2,
     { clients := ainsert cs.clients window client
       order := cs.order.map (fun p =>
         if ¬ client.match_tags p.1 then
           (p.1, p.2.remove window)
         else
           (p.1, p.2.add window false .NextToRight .Vertical)) })

/-- `ClientSet::get_focused_window`: `None` when no order entry exists for
`tags`; otherwise the entry's `get_focused` result, which panics
(`.error ()`) instead of ever producing `None`. -/
def ClientSet.get_focused_window (cs : ClientSet) (tags : Finset Tag) :
    Except Unit (Option Window) :=
  match alookup cs.order tags with
  | none => .ok none
  | some t => (t.get_focused).map some

/-- `TagSet` from src/src/wm/client.rs: a set of tags. The `layout` field
(a boxed trait object) is not read by any modelled operation and is
omitted. -/
structure TagSet where
  tags : Finset Tag
deriving DecidableEq

/-- `TagStack` from src/src/wm/client.rs: tagsets keyed by `u8` index,
the hidden tags, and the bounded history of viewed indices. -/
structure TagStack where
  tagsets : List (Nat × TagSet)
  hidden : Finset Tag
  history : List Nat
deriving DecidableEq

/-- `TagStack::push`: if `tagsets` contains the key, drain the oldest
history entries down to 3 whenever the current length is at least 4, then
append the new index; otherwise do nothing. -/
def TagStack.push (s : TagStack) (new_index : Nat) : TagStack :=
  if s.tagsets.any (fun p => p.1 == new_index) then
    let len := s.history.length
    let history := if len ≥ 4 then s.history.drop (len - 3) else s.history
    { s with history := history ++ [new_index] }
  else s

/-- `TagStack::view_prev`: pop the last history entry, returning whether
one was popped. -/
def TagStack.view_prev (s : TagStack) : Bool × TagStack :=
  match s.history.getLast? with
  | some _ => (true, { s with history := s.history.dropLast })
  | none => (false, s)

/-- `TilingArea` from src/src/wm/layout.rs, with the four `u32` fields the
spec gives (`rectangle(offset_x, offset_y, width, height)`) and that
client.rs reads and writes. -/
structure TilingArea where
  offset_x : Nat
  offset_y : Nat
  width : Nat
  height : Nat
deriving DecidableEq, Repr

/-- `Screen` from src/src/wm/client.rs. -/
structure Screen where
  area : TilingArea
  tag_stack : TagStack
  top : Option Crtc
  right : Option Crtc
  bottom : Option Crtc
  left : Option Crtc
deriving DecidableEq

/-- `Screen::default()`: zero area, clean tag stack, no neighbours. -/
def Screen.default : Screen :=
  { area := ⟨0, 0, 0, 0⟩
    tag_stack := ⟨[], ∅, []⟩
    top := none, right := none, bottom := none, left := none }

/-- `Screen::swap_dimensions`: swap width with height and `offset_x` with
`offset_y`. -/
def Screen.swap_dimensions (s : Screen) : Screen :=
  { s with area := ⟨s.area.offset_y, s.area.offset_x, s.area.height, s.area.width⟩ }

/-- `ScreenSet` from src/src/wm/client.rs: the ordered list of
`(Crtc, Screen)` pairs and the current screen's index. -/
structure ScreenSet where
  screens : List (Crtc × Screen)
  current_screen : Nat
deriving DecidableEq

/-- `ScreenSet::remove`: look up the entry at `current_screen` (the source
panics when the index is out of bounds, modelled as `none`); if its CRTC
is the removed one, reset `current_screen` to 0 and report `true`, else
report `false`; in both cases retain only the entries whose CRTC differs
from the removed one. -/
def ScreenSet.remove (s : ScreenSet) (old_crtc : Crtc) : Option (Bool × ScreenSet) :=
  match s.screens.get? s.current_screen with
  | none => none
  | some (crtc, _) =>
    let ret := crtc == old_crtc
    let cur := if crtc == old_crtc then 0 else s.current_screen
    some (ret,
          { screens := s.screens.filter (fun p => p.1 ≠ old_crtc)
            current_screen := cur })

/-- `randr::ROTATION_ROTATE_90` (xcb randr rotation bitfield). -/
def ROTATION_ROTATE_90 : Nat := 2

/-- `randr::ROTATION_ROTATE_270` (xcb randr rotation bitfield). -/
def ROTATION_ROTATE_270 : Nat := 8

/-- `randr::CrtcChange` as read by `ScreenSet::update`: the CRTC id, the
`i16` position, the `u16` dimensions and the `u16` rotation bitfield. -/
structure CrtcChange where
  crtc : Crtc
  x : Int
  y : Int
  width : Nat
  height : Nat
  rotation : Nat
deriving DecidableEq, Repr

/-- The `i16 as u32` cast applied to `change.x()` and `change.y()` in
`ScreenSet::update`: sign-extend and reinterpret, i.e. reduce modulo
`2^32`. -/
def u32_of_i16 (x : Int) : Nat :=
  (x % (2 ^ 32)).toNat

/-- The per-screen mutation of `ScreenSet::update`: set the area's offset
from the change's (cast) position and its dimensions from the change's
width and height, then call `swap_dimensions` when the rotation bitfield
intersects `ROTATE_90 | ROTATE_270`. -/
def applyChange (change : CrtcChange) (scr : Screen) : Screen :=
  let scr := { scr with area := ⟨u32_of_i16 change.x, u32_of_i16 change.y,
                                 change.width, change.height⟩ }
  if Nat.land change.rotation (Nat.lor ROTATION_ROTATE_90 ROTATION_ROTATE_270) ≠ 0 then
    scr.swap_dimensions
  else scr

/-- Apply the change to the first entry whose CRTC matches, as the
source's `iter_mut().find(...)` does (its `panic!` branch for a missing
entry is unreachable because `updateScreens` pushes one first). -/
def updateFirst (change : CrtcChange) : List (Crtc × Screen) → List (Crtc × Screen)
  | [] => []
  | (k, scr) :: rest =>
    if k == change.crtc then (k, applyChange change scr) :: rest
    else (k, scr) :: updateFirst change rest

/-- The body of `ScreenSet::update` acting on the screen list: push a
default screen for the CRTC if none is present, then mutate the first
entry with that CRTC. -/
def updateScreens (l : List (Crtc × Screen)) (change : CrtcChange) : List (Crtc × Screen) :=
  let l :=
    if (l.find? (fun p => p.1 == change.crtc)).isNone then
      l ++ [(change.crtc, Screen.default)]
    else l
  updateFirst change l

/-- `ScreenSet::update`: upsert the screen for the change's CRTC (see
`updateScreens`); `current_screen` is untouched. -/
def ScreenSet.update (s : ScreenSet) (change : CrtcChange) : ScreenSet :=
  { s with screens := updateScreens s.screens change }

/-- `KbdError` from src/gwm-kbd/src/kbd/err.rs as used by desc.rs: only
the two variants the spec names are modelled. -/
inductive KbdError
  | InvalidChord (text : String)
  | KeyTypeMismatch (binding : String) (expected_string : Bool)
deriving DecidableEq, Repr

/-- `KbdResult<A>`. -/
abbrev KbdResult (A : Type) := Except KbdError A

/-- Modelled from the spec: the `modmask` module
(src/gwm-kbd/src/kbd/modmask.rs) is not under src/. Per spec section 4.A,
`from_str` recognizes the textual names of the X modifiers and yields
their bit (the source ORs the bit into its `&mut` argument and returns
whether it recognized the word). The X modifier bits are Shift, Lock,
Control and Mod1 through Mod5, bits 0 through 7 of the mask. -/
def modmask_from_str (word : String) : Option Nat :=
  if word = "Shift" then some 1
  else if word = "Lock" then some 2
  else if word = "Control" then some 4
  else if word = "Mod1" then some 8
  else if word = "Mod2" then some 16
  else if word = "Mod3" then some 32
  else if word = "Mod4" then some 64
  else if word = "Mod5" then some 128
  else none

/-- Modelled from the spec: `modmask::combine(m, n) = m | n`
(spec section 4.A). -/
def modmask_combine (m n : Nat) : Nat := Nat.lor m n

/-- Modelled from the spec: the ignorable modifier bits are the caps-lock
(Lock), num-lock (Mod2) and scroll-lock (Mod3) bits (spec sections 4.A and
the glossary). -/
def IGNORED_MASK : Nat := 2 + 16 + 32

/-- Modelled from the spec: `modmask::filter_ignore` clears the ignorable
bits of a `u32` mask. -/
def modmask_filter_ignore (m : Nat) : Nat :=
  Nat.land m (Nat.xor (2 ^ 32 - 1) IGNORED_MASK)

/-- Modelled from the spec: `xkb::Keysym::from_str` is an external crate
call translating a keysym name to its integer value. It is modelled as
recognizing exactly the single lowercase latin letters (keysym value =
character code), a table disjoint from the modifier names and from the
literal word starting with the dollar sign that `from_string` treats
specially. -/
def keysym_from_name (word : String) : Option Nat :=
  match word.toList with
  | [c] => if 'a' ≤ c ∧ c ≤ 'z' then some c.toNat else none
  | _ => none

/-- `ChordDesc` from src/gwm-kbd/src/kbd/desc.rs: a keysym value and the
modifier mask with ignorable bits stripped. -/
structure ChordDesc where
  keysym : Nat
  modmask : Nat
deriving DecidableEq, Repr

/-- The word loop of `ChordDesc::from_string`, one iteration per
`+`-separated word: the literal modkey word adds the configured mask, a
recognized modifier word adds its bit, the first word that parses as a
keysym terminates with success (filtering ignorable bits from the
accumulated mask), and any other word is skipped with a warning; if the
words run out, the whole input is an invalid chord. -/
def from_string_go (desc : String) (modkey_mask : Nat) :
    List String → Nat → KbdResult ChordDesc
  | [], _ => .error (.InvalidChord desc)
  | word :: rest, modmask =>
    if word = "$modkey" then
      from_string_go desc modkey_mask rest (modmask_combine modmask modkey_mask)
    else
      match modmask_from_str word with
      | some bit => from_string_go desc modkey_mask rest (modmask_combine modmask bit)
      | none =>
        match keysym_from_name word with
        | some sym => .ok ⟨sym, modmask_filter_ignore modmask⟩
        | none => from_string_go desc modkey_mask rest modmask

/-- Rust's `str::split('+')` on a character list: the (possibly empty)
substrings between the occurrences of the separator; the empty input
yields one empty word. -/
def splitPlusChars : List Char → List (List Char)
  | [] => [[]]
  | c :: rest =>
    if c = '+' then [] :: splitPlusChars rest
    else
      match splitPlusChars rest with
      | [] => [[c]]
      | w :: ws => (c :: w) :: ws

/-- Rust's `desc.split('+')` as an iterator over words. -/
def split_plus (s : String) : List String :=
  (splitPlusChars s.toList).map (fun cs => String.mk cs)

/-- `ChordDesc::from_string`: run the word loop over the `+`-separated
words of `desc` with an initially empty modifier mask. -/
def ChordDesc.from_string (desc : String) (modkey_mask : Nat) : KbdResult ChordDesc :=
  from_string_go desc modkey_mask (split_plus desc) 0

/-! ## Fixtures: concrete states used by the claim theorems -/

/-- The tagset key containing only `Work(0)`. -/
def work0 : Finset Tag := {Tag.Work 0}

/-- The tagset key containing only `Work(1)`. -/
def work1 : Finset Tag := {Tag.Work 1}

/-- Trivial client properties. -/
def props0 : ClientProps := ⟨0, [], "", []⟩

/-- A client for window 1, visible on `Work(0)`. -/
def client1 : Client := Client.new 1 work0 props0

/-- A client for window 2, visible on `Work(0)`. -/
def client2 : Client := Client.new 2 work0 props0

/-- The subset tree holding exactly the focused leaf for window 1, as
produced by inserting window 1 into an empty tree the way `ClientSet::add`
does. -/
def tree1 : SubsetTree := SubsetTree.new.add 1 true .NextToRight .Vertical

/-- A client set holding `client1` with a materialized order entry for the
`Work(0)` key containing window 1. -/
def cs1 : ClientSet := ⟨[(1, client1)], [(work0, tree1)]⟩

/-- A client set with no clients and a materialized, empty order entry for
the `Work(0)` key. -/
def cs2 : ClientSet := ⟨[], [(work0, SubsetTree.new)]⟩

/-- Whether some client leaf of the tree's arena references `w`. -/
def windowInTree (t : SubsetTree) (w : Window) : Bool :=
  t.arena.any (fun e =>
    match e with
    | .client _ w2 => w2 == w
    | _ => false)

/-- Scenario S2 after the first insertion. -/
def s2tree1 : SubsetTree := SubsetTree.new.add 1 true .BelowRight .Vertical

/-- Scenario S2 after the second insertion. -/
def s2tree2 : SubsetTree := s2tree1.add 2 true .NextToRight .Vertical

/-- Scenario S2 after the third insertion. -/
def s2tree3 : SubsetTree := s2tree2.add 3 false .BelowLeft .Horizontal

/-- A default screen (`Screen::default()`). -/
def screen0 : Screen := Screen.default

/-- A screen set with CRTCs 1, 2, 3 whose current screen is the third
(index 2, CRTC 3): a valid state with `current_screen < screens.len()`. -/
def ss5 : ScreenSet := ⟨[(1, screen0), (2, screen0), (3, screen0)], 2⟩

/-- The screen set left behind by `ss5.remove 2`. -/
def ss5after : ScreenSet := ⟨[(1, screen0), (3, screen0)], 2⟩

/-- A tag stack whose `tagsets` map holds the indices 1 through 5 (scenario
S4), with an empty history. -/
def historyStack : TagStack :=
  ⟨[(1, ⟨∅⟩), (2, ⟨∅⟩), (3, ⟨∅⟩), (4, ⟨∅⟩), (5, ⟨∅⟩)], ∅, []⟩

/-- A single mutating call on a `Client`'s tags: either `set_tags` with a
slice or `toggle_tag` with a tag. -/
inductive ClientOp
  | setTagsOp (l : List Tag)
  | toggleTagOp (t : Tag)

/-- Run one `ClientOp` on a client (`toggle_tag`'s returned flag is
dropped). -/
def Client.applyOp (c : Client) : ClientOp → Client
  | .setTagsOp l => c.set_tags l
  | .toggleTagOp t => (c.toggle_tag t).2

/-- A client set with no clients and a materialized order entry for the
`Work(1)` key holding a fresh empty tree (so no leaf is focused). -/
def c10set : ClientSet := ⟨[], [(work1, SubsetTree.new)]⟩

/-- The tiling area the amended claim C8 predicts for the updated screen:
offsets and dimensions from the change, with BOTH the dimensions and the
offsets swapped when the rotation includes `ROTATE_90` or `ROTATE_270`
(the original claim swaps only the dimensions). -/
def spec_updated_area (change : CrtcChange) : TilingArea :=
  if Nat.land change.rotation (Nat.lor ROTATION_ROTATE_90 ROTATION_ROTATE_270) ≠ 0 then
    ⟨u32_of_i16 change.y, u32_of_i16 change.x, change.height, change.width⟩
  else
    ⟨u32_of_i16 change.x, u32_of_i16 change.y, change.width, change.height⟩

/-- A screen set with a single screen on CRTC 1. -/
def ss8 : ScreenSet := ⟨[(1, screen0)], 0⟩

/-- A rotated CRTC change at a position with distinct coordinates:
CRTC 1, x = 10, y = 20, 100 × 50, rotation `ROTATE_90`. -/
def ch8 : CrtcChange := ⟨1, 10, 20, 100, 50, 2⟩

/-- A screen set with a single screen on CRTC 7 (scenario S6). -/
def ss6 : ScreenSet := ⟨[(7, screen0)], 0⟩

/-- The scenario S6 change: CRTC 7 at the origin, 1920 × 1080, rotation
`ROTATE_90`. -/
def ch6 : CrtcChange := ⟨7, 0, 0, 1920, 1080, 2⟩

/-- The contribution of one pre-keysym word to the modifier mask: the
literal modkey word ORs in the configured mask, a recognized modifier word
ORs in its bit, any other word contributes nothing. -/
def chord_mods_step (modkey_mask m : Nat) (v : String) : Nat :=
  if v = "$modkey" then modmask_combine m modkey_mask
  else
    match modmask_from_str v with
    | some bit => modmask_combine m bit
    | none => m

/-- The modifier mask the claim C7 predicts for the list of words
preceding the first keysym word: the OR of their contributions. -/
def chord_mods (modkey_mask : Nat) (words : List String) : Nat :=
  words.foldl (chord_mods_step modkey_mask) 0

/-! ## Claim theorems -/

/-- C1: the claim states that after `update_client` changes a client's
tags, the window is removed from every tree whose key no longer intersects
the new tags. The code violates this: `SubsetTree::remove` is an empty
stub, so after moving window 1 from `Work(0)` to `Work(1)` the `Work(0)`
tree still holds the leaf for window 1 even though the updated client's
tags no longer intersect that key. This theorem evaluates the code at the
failing input. -/
theorem update_client_stale_window_code_bug :
    (cs1.update_client 1 (fun c => (c.set_tags [Tag.Work 1], WmCommand.Redraw))).2.order
        = [(work0, tree1)] ∧
    windowInTree tree1 1 = true ∧
    ((cs1.update_client 1 (fun c => (c.set_tags [Tag.Work 1], WmCommand.Redraw))).2.clients.map
        (fun p => (p.1, p.2.match_tags work0))) = [(1, false)] := by
  decide

/-- C2: the claim states that `add(c); remove(c.window)` restores the
prior `ClientSet`, including every `SubsetTree` in `order`. The code
violates this: `ClientSet::remove` calls the stubbed `SubsetTree::remove`,
so the leaf inserted by `add` survives in the materialized tree (only the
`clients` map is restored, and `remove` returns `true` as claimed). This
theorem evaluates the code at the failing input. -/
theorem add_remove_roundtrip_code_bug :
    ((cs2.add client1 true).remove 1).1 = true ∧
    ((cs2.add client1 true).remove 1).2.clients = cs2.clients ∧
    ((cs2.add client1 true).remove 1).2.order ≠ cs2.order ∧
    ((cs2.add client1 true).remove 1).2.order
        = [(work0, ⟨[.client none 1], none, some 0, none⟩)] := by
  decide

/-- C3: the claim (scenario S2) states that the third insertion
`add(w=3, focus=false, BelowLeft, Horizontal)` turns the root into a
horizontal split with children `[leaf 3, vertical-split [1, 2]]`. The
first two steps do behave as claimed (steps one and two below; the `root`
field itself is never assigned by the source, so "root" is the parentless
node). The third step diverges: the reference is the focused leaf for
window 2, and `add` wraps that leaf alone, removing it from the vertical
split without attaching the new horizontal split anywhere, so the arena
ends with two parentless nodes: the horizontal split `[leaf 3, leaf 2]`
and the detached vertical split holding only `[leaf 1]`. This theorem
evaluates the code over all three steps. -/
theorem tree_insertion_scenario_code_bug :
    s2tree1 = ⟨[.client none 1], none, some 0, none⟩ ∧
    s2tree2 = ⟨[.client (some 2) 1, .client (some 2) 2,
                .split none .Vertical [0, 1]], none, some 1, none⟩ ∧
    s2tree3 = ⟨[.client (some 2) 1, .client (some 4) 2,
                .split none .Vertical [0], .client (some 4) 3,
                .split none .Horizontal [3, 1]], none, some 1, none⟩ := by
  decide

/-- C4: the claim states that `ClientSet::add` with `as_slave = true` uses
bias `NextToLeft` and keeps the tree's focused node. The code violates
this: the `as_slave` parameter is never read, every insertion uses
`NextToRight` with `focus = true`, so the call with `as_slave = true`
produces exactly the same state as with `as_slave = false`, and the
focus of the `Work(0)` tree moves from the leaf for window 1 (slot 0) to
the new leaf for window 2 (slot 1). This theorem evaluates the code at the
failing input. -/
theorem add_as_slave_ignored_code_bug :
    cs1.add client2 true = cs1.add client2 false ∧
    tree1.focused = some 0 ∧
    (alookup (cs1.add client2 true).order work0).map (fun t => t.focused)
        = some (some 1) := by
  decide

/-- C5: the claim states that after `ScreenSet::remove`, whenever
`screens` is still non-empty, `current_screen < screens.len()` continues
to hold. The code violates this: removing a non-current CRTC that precedes
the current screen shrinks the list without adjusting `current_screen`,
leaving a stale index (on which the source's own `current()` would then
hit its `panic!`). Here `ss5` has three screens with the current one at
index 2; removing CRTC 2 returns `false` and leaves `current_screen = 2`
with only two screens remaining. This theorem evaluates the code at the
failing input. -/
theorem screenset_remove_invariant_code_bug :
    ss5.remove 2 = some (false, ss5after) ∧
    ss5after.screens ≠ [] ∧
    ¬ (ss5after.current_screen < ss5after.screens.length) := by
  decide

/-- One `push` keeps the history length at 4 or below. -/
theorem push_length_le (t : TagStack) (i : Nat) (h : t.history.length ≤ 4) :
    (t.push i).history.length ≤ 4 := by
  unfold TagStack.push
  by_cases hc : t.tagsets.any (fun p => p.1 == i) = true
  · simp only [hc, if_true]
    by_cases hl : t.history.length ≥ 4
    · simp only [hl, if_true, List.length_append, List.length_drop, List.length_cons,
                 List.length_nil]
      omega
    · simp only [hl, if_false, List.length_append, List.length_cons, List.length_nil]
      omega
  · simp only [Bool.not_eq_true] at hc
    simp only [hc, Bool.false_eq_true, if_false]
    exact h

/-- C6: after any sequence of `push` calls starting from a history of
length at most 4, the length stays at most 4; a `push` of a key present in
`tagsets` appends it (so it becomes `history.last()`), while a `push` of an
absent key changes nothing; and the S4 scenario on `historyStack` gives
`[2,3,4,5]` after pushing 1 through 5, after which `view_prev` returns
`true` and leaves `[2,3,4]`. -/
theorem tagstack_history_cap_confirmed :
    (∀ (t : TagStack) (idxs : List Nat), t.history.length ≤ 4 →
        ((idxs.foldl TagStack.push t).history.length ≤ 4)) ∧
    (∀ (t : TagStack) (i : Nat), t.tagsets.any (fun p => p.1 == i) = true →
        (t.push i).history.getLast? = some i) ∧
    (∀ (t : TagStack) (i : Nat), t.tagsets.any (fun p => p.1 == i) = false →
        t.push i = t) ∧
    (([1, 2, 3, 4, 5].foldl TagStack.push historyStack).history = [2, 3, 4, 5]) ∧
    (([1, 2, 3, 4, 5].foldl TagStack.push historyStack).view_prev
        = (true, { historyStack with history := [2, 3, 4] })) := by
  refine ⟨?_, ?_, ?_, by decide, by decide⟩
  · intro t idxs
    induction idxs generalizing t with
    | nil => intro h; exact h
    | cons i rest ih =>
      intro h
      exact ih (t.push i) (push_length_le t i h)
  · intro t i hc
    unfold TagStack.push
    simp only [hc, if_true]
    exact List.getLast?_concat _
  · intro t i hc
    unfold TagStack.push
    simp only [hc, Bool.false_eq_true, if_false]

/-- Witness for C6 at concrete inputs. -/
theorem tagstack_history_cap_witness :
    ((([2, 3] : List Nat).foldl TagStack.push historyStack).history.length ≤ 4) ∧
    ((historyStack.push 1).history.getLast? = some 1) ∧
    (historyStack.push 7 = historyStack) :=
  ⟨tagstack_history_cap_confirmed.1 historyStack [2, 3] (by decide),
   tagstack_history_cap_confirmed.2.1 historyStack 1 (by decide),
   tagstack_history_cap_confirmed.2.2.1 historyStack 7 (by decide)⟩

/-- One tag operation keeps a non-empty tag set non-empty. -/
theorem applyOp_tags_ne (c : Client) (op : ClientOp) (h : c.tags ≠ ∅) :
    (c.applyOp op).tags ≠ ∅ := by
  cases op with
  | setTagsOp l =>
    unfold Client.applyOp Client.set_tags
    by_cases hl : l.length > 0
    · simp only [hl, if_true]
      intro he
      rw [List.toFinset_eq_empty_iff] at he
      subst he
      simp at hl
    · simp only [hl, if_false]
      exact h
  | toggleTagOp t =>
    unfold Client.applyOp Client.toggle_tag
    by_cases hm : t ∈ c.tags
    · simp only [hm, if_true]
      by_cases hcard : 1 < c.tags.card
      · simp only [hcard, if_true]
        intro he
        have := Finset.card_erase_of_mem hm
        rw [he] at this
        simp at this
        omega
      · simp only [hcard, if_false]
        exact h
    · simp only [hm, if_false]
      exact Finset.insert_ne_empty t c.tags

/-- C9: a client's tags stay non-empty under any sequence of `set_tags`
and `toggle_tag` calls; `set_tags` with an empty slice is the identity;
`toggle_tag` on the only tag returns `None` without changing the client;
and a `Some(b)` result reports whether the tag was present before the
call. -/
theorem client_tags_nonempty_confirmed :
    (∀ (c : Client) (ops : List ClientOp), c.tags ≠ ∅ →
        (ops.foldl Client.applyOp c).tags ≠ ∅) ∧
    (∀ c : Client, c.set_tags [] = c) ∧
    (∀ (c : Client) (t : Tag), c.tags = {t} → c.toggle_tag t = (none, c)) ∧
    (∀ (c : Client) (t : Tag) (b : Bool) (c2 : Client),
        c.toggle_tag t = (some b, c2) → b = decide (t ∈ c.tags)) := by
  refine ⟨?_, ?_, ?_, ?_⟩
  · intro c ops
    induction ops generalizing c with
    | nil => intro h; exact h
    | cons op rest ih => intro h; exact ih (c.applyOp op) (applyOp_tags_ne c op h)
  · intro c
    unfold Client.set_tags
    simp
  · intro c t hc
    unfold Client.toggle_tag
    have hm : t ∈ c.tags := by rw [hc]; exact Finset.mem_singleton_self t
    have hcard : ¬ 1 < c.tags.card := by rw [hc]; simp
    simp only [hm, if_true, hcard, if_false]
  · intro c t b c2 h
    unfold Client.toggle_tag at h
    by_cases hm : t ∈ c.tags
    · simp only [hm, if_true] at h
      by_cases hcard : 1 < c.tags.card
      · simp only [hcard, if_true, Prod.mk.injEq, Option.some.injEq] at h
        rw [← h.1]
        simp [hm]
      · simp only [hcard, if_false, Prod.mk.injEq] at h
        exact absurd h.1 (by simp)
    · simp only [hm, if_false, Prod.mk.injEq, Option.some.injEq] at h
      rw [← h.1]
      simp [hm]

/-- Witness for C9 at concrete inputs. -/
theorem client_tags_nonempty_witness :
    (([ClientOp.toggleTagOp Tag.Web, ClientOp.setTagsOp []].foldl
        Client.applyOp client1).tags ≠ ∅) ∧
    (client1.toggle_tag (Tag.Work 0) = (none, client1)) ∧
    (false = decide (Tag.Web ∈ client1.tags)) :=
  ⟨client_tags_nonempty_confirmed.1 client1 _ (by decide),
   client_tags_nonempty_confirmed.2.2.1 client1 (Tag.Work 0) (by decide),
   client_tags_nonempty_confirmed.2.2.2 client1 Tag.Web false
     ((client1.toggle_tag Tag.Web).2) (by decide)⟩

/-- C10: `SubsetTree::get_focused` returns `Some(w)` (modelled `.ok w`)
exactly when `focused` designates a client leaf for `w`, and otherwise
panics (modelled `.error ()`): in particular when `focused` is unset, as
on a freshly created tree, or when it designates a split node.
Consequently `ClientSet::get_focused_window` panics rather than returning
`None` whenever `order` holds a tree for the key with no focused client
leaf. -/
theorem get_focused_panic_confirmed :
    (∀ (t : SubsetTree) (w : Window),
        t.get_focused = .ok w ↔
          ∃ id p, t.focused = some id ∧ t.arena.get? id = some (.client p w)) ∧
    (∀ t : SubsetTree, t.focused = none → t.get_focused = .error ()) ∧
    (∀ (t : SubsetTree) (id : Nat) (p : Option Nat) (d : SplitDirection)
        (children : List Nat),
        t.focused = some id → t.arena.get? id = some (.split p d children) →
        t.get_focused = .error ()) ∧
    (SubsetTree.new.get_focused = .error ()) ∧
    (∀ (cset : ClientSet) (tags : Finset Tag) (t : SubsetTree),
        alookup cset.order tags = some t → t.get_focused = .error () →
        cset.get_focused_window tags = .error ()) := by
  refine ⟨?_, ?_, ?_, by decide, ?_⟩
  · intro t w
    constructor
    · intro h
      unfold SubsetTree.get_focused at h
      cases hf : t.focused with
      | none => rw [hf] at h; simp at h
      | some id =>
        rw [hf] at h
        simp only [Option.some_bind] at h
        cases he : t.arena.get? id with
        | none => rw [he] at h; simp at h
        | some e =>
          rw [he] at h
          cases e with
          | client p w2 =>
            simp only [Except.ok.injEq] at h
            exact ⟨id, p, rfl, by rw [he, h]⟩
          | split p d children => simp at h
    · rintro ⟨id, p, hf, he⟩
      unfold SubsetTree.get_focused
      rw [hf]
      simp only [Option.some_bind, he]
  · intro t hf
    unfold SubsetTree.get_focused
    rw [hf]
    rfl
  · intro t id p d children hf he
    unfold SubsetTree.get_focused
    rw [hf]
    simp only [Option.some_bind, he]
  · intro cset tags t hl hf
    unfold ClientSet.get_focused_window
    rw [hl]
    show Except.map some t.get_focused = .error ()
    rw [hf]
    rfl

/-- Witness for C10 at concrete inputs. -/
theorem get_focused_panic_witness :
    SubsetTree.new.get_focused = .error () ∧
    c10set.get_focused_window work1 = .error () :=
  ⟨get_focused_panic_confirmed.2.1 SubsetTree.new rfl,
   get_focused_panic_confirmed.2.2.2.2 c10set work1 SubsetTree.new (by decide) rfl⟩

/-- The mutated screen's area is the one the amended claim predicts,
whatever it was before. -/
theorem applyChange_area (change : CrtcChange) (scr : Screen) :
    (applyChange change scr).area = spec_updated_area change := by
  unfold applyChange spec_updated_area Screen.swap_dimensions
  by_cases h : Nat.land change.rotation (Nat.lor ROTATION_ROTATE_90 ROTATION_ROTATE_270) ≠ 0
  · rw [if_pos h, if_pos h]
  · rw [if_neg h, if_neg h]

/-- `updateScreens` leaves a non-matching head entry alone and recurses. -/
theorem updateScreens_cons (k : Crtc) (scr : Screen) (rest : List (Crtc × Screen))
    (change : CrtcChange) (hk : (k == change.crtc) = false) :
    updateScreens ((k, scr) :: rest) change = (k, scr) :: updateScreens rest change := by
  unfold updateScreens
  simp only [List.find?, hk]
  by_cases hr : (rest.find? (fun p => p.1 == change.crtc)).isNone = true
  · simp only [hr, if_true, List.cons_append]
    simp only [updateFirst, hk, Bool.false_eq_true, if_false]
  · simp only [hr, Bool.false_eq_true, if_false]
    simp only [updateFirst, hk, Bool.false_eq_true, if_false]

/-- After `updateScreens`, the first entry for the change's CRTC exists
and carries the predicted area. -/
theorem updateScreens_lookup (l : List (Crtc × Screen)) (change : CrtcChange) :
    (alookup (updateScreens l change) change.crtc).map Screen.area
      = some (spec_updated_area change) := by
  induction l with
  | nil =>
    unfold updateScreens updateFirst alookup
    simp [applyChange_area]
  | cons hd rest ih =>
    obtain ⟨k, scr⟩ := hd
    by_cases hk : (k == change.crtc) = true
    · unfold updateScreens
      simp only [List.find?, hk, Option.isNone_some, Bool.false_eq_true, if_false]
      unfold updateFirst
      simp only [hk, if_true]
      unfold alookup
      simp only [List.find?, hk, Option.map_some]
      simp [applyChange_area]
    · rw [Bool.not_eq_true] at hk
      rw [updateScreens_cons k scr rest change hk]
      unfold alookup
      simp only [List.find?, hk]
      exact ih

/-- Counterexample to C8 as stated: the claim says `update` sets the
screen's area offsets from the change's `x` and `y` and swaps only the
dimensions on rotation. For the rotated change `ch8` with `x = 10`,
`y = 20`, the code produces area `(20, 10, 50, 100)` — the offsets are
swapped too — instead of the claimed `(10, 20, 50, 100)`. -/
theorem screenset_update_offsets_counterexample :
    (alookup (ss8.update ch8).screens 1).map Screen.area
        = some (⟨20, 10, 50, 100⟩ : TilingArea) ∧
    (⟨20, 10, 50, 100⟩ : TilingArea) ≠ (⟨10, 20, 50, 100⟩ : TilingArea) := by
  constructor
  · rfl
  · decide

/-- C8 (amended): `ScreenSet::update` upserts the screen keyed by the
change's CRTC, sets its area from the change's position and dimensions,
and swaps BOTH the dimensions and the offsets exactly when the rotation
flags include `ROTATE_90` or `ROTATE_270`; `current_screen` is untouched.
In particular the scenario S6 change (origin position, so the offset swap
is invisible) yields area `(0, 0, 1080, 1920)`. -/
theorem screenset_update_amended :
    (∀ (s : ScreenSet) (change : CrtcChange),
        (alookup (s.update change).screens change.crtc).map Screen.area
            = some (spec_updated_area change) ∧
        (s.update change).current_screen = s.current_screen) ∧
    ((alookup (ss6.update ch6).screens 7).map Screen.area
        = some (⟨0, 0, 1080, 1920⟩ : TilingArea)) := by
  refine ⟨fun s change => ⟨?_, rfl⟩, by rfl⟩
  exact updateScreens_lookup s.screens change

/-- A word recognized as a modifier name is not a keysym name. -/
theorem mod_no_keysym (v : String) (bit : Nat) (h : modmask_from_str v = some bit) :
    keysym_from_name v = none := by
  unfold modmask_from_str at h
  split_ifs at h with h1 h2 h3 h4 h5 h6 h7 h8
  · subst h1; rfl
  · subst h2; rfl
  · subst h3; rfl
  · subst h4; rfl
  · subst h5; rfl
  · subst h6; rfl
  · subst h7; rfl
  · subst h8; rfl

/-- The word loop fails with `InvalidChord` exactly when none of the
remaining words parses as a keysym, whatever mask has been accumulated. -/
theorem from_string_go_error_iff (desc : String) (modkey_mask : Nat) :
    ∀ (ws : List String) (m : Nat),
      (from_string_go desc modkey_mask ws m = .error (.InvalidChord desc)) ↔
      (∀ w ∈ ws, keysym_from_name w = none) := by
  intro ws
  induction ws with
  | nil => intro m; simp [from_string_go]
  | cons w ws ih =>
    intro m
    by_cases h1 : w = "$modkey"
    · subst h1
      simp only [from_string_go, if_true, eq_self_iff_true]
      rw [ih]
      constructor
      · intro h v hv
        rcases List.mem_cons.mp hv with hv | hv
        · subst hv; rfl
        · exact h v hv
      · intro h v hv
        exact h v (List.mem_cons_of_mem _ hv)
    · cases h2 : modmask_from_str w with
      | some bit =>
        simp only [from_string_go, if_neg h1, h2]
        rw [ih]
        have hwk := mod_no_keysym w bit h2
        constructor
        · intro h v hv
          rcases List.mem_cons.mp hv with hv | hv
          · subst hv; exact hwk
          · exact h v hv
        · intro h v hv
          exact h v (List.mem_cons_of_mem _ hv)
      | none =>
        cases h3 : keysym_from_name w with
        | some sym =>
          simp only [from_string_go, if_neg h1, h2, h3]
          constructor
          · intro h; exact absurd h (by simp)
          · intro h
            have := h w (List.mem_cons_self _ _)
            rw [h3] at this
            exact absurd this (by simp)
        | none =>
          simp only [from_string_go, if_neg h1, h2, h3]
          rw [ih]
          constructor
          · intro h v hv
            rcases List.mem_cons.mp hv with hv | hv
            · subst hv; exact h3
            · exact h v hv
          · intro h v hv
            exact h v (List.mem_cons_of_mem _ hv)

/-- When the word list decomposes as non-keysym words followed by a keysym
word, the word loop succeeds with that keysym and the accumulated mask of
the preceding words, filtered of ignorable bits. -/
theorem from_string_go_ok (desc : String) (modkey_mask : Nat) (w : String) (sym : Nat)
    (post : List String) (hw : keysym_from_name w = some sym) :
    ∀ (pre : List String) (m : Nat), (∀ v ∈ pre, keysym_from_name v = none) →
      from_string_go desc modkey_mask (pre ++ w :: post) m
        = .ok ⟨sym, modmask_filter_ignore (pre.foldl (chord_mods_step modkey_mask) m)⟩ := by
  intro pre
  induction pre with
  | nil =>
    intro m _
    have h1 : w ≠ "$modkey" := by
      intro hc; subst hc; exact absurd hw (by simp [keysym_from_name, String.toList])
    have h2 : modmask_from_str w = none := by
      cases hm : modmask_from_str w with
      | some bit => rw [mod_no_keysym w bit hm] at hw; exact absurd hw (by simp)
      | none => rfl
    simp only [List.nil_append, from_string_go, if_neg h1, h2, hw, List.foldl_nil]
  | cons v vs ih =>
    intro m hpre
    have hv : keysym_from_name v = none := hpre v (List.mem_cons_self _ _)
    have hvs : ∀ u ∈ vs, keysym_from_name u = none :=
      fun u hu => hpre u (List.mem_cons_of_mem _ hu)
    by_cases h1 : v = "$modkey"
    · subst h1
      simp only [List.cons_append, from_string_go, if_true, eq_self_iff_true,
                 List.foldl_cons, List.append_eq]
      rw [ih _ hvs]
      simp [chord_mods_step]
    · cases h2 : modmask_from_str v with
      | some bit =>
        simp only [List.cons_append, from_string_go, if_neg h1, h2, List.foldl_cons,
                   List.append_eq]
        rw [ih _ hvs]
        simp [chord_mods_step, h1, h2]
      | none =>
        simp only [List.cons_append, from_string_go, if_neg h1, h2, hv, List.foldl_cons,
                   List.append_eq]
        rw [ih _ hvs]
        simp [chord_mods_step, h1, h2]

/-- C7: `ChordDesc::from_string` fails with `InvalidChord(desc)` exactly
when no `+`-separated word of `desc` parses as a keysym; otherwise the
resulting chord's keysym is the first word that parses as a keysym and its
modmask is the OR of the preceding modifier words (the literal modkey word
expanding to `modkey_mask`) with the ignorable bits cleared. In
particular, the modkey word followed by Shift and the letter q, with
modkey = Mod4 (64), yields keysym q (113) with mask Mod4|Shift (65), and
the single word abc yields `InvalidChord`. The missing `modmask` module
and the external xkb keysym table are modelled from the spec. -/
theorem chord_from_string_confirmed :
    (∀ (desc : String) (modkey_mask : Nat),
        ChordDesc.from_string desc modkey_mask = .error (.InvalidChord desc) ↔
        ∀ w ∈ split_plus desc, keysym_from_name w = none) ∧
    (∀ (desc : String) (modkey_mask : Nat) (pre : List String) (w : String)
        (post : List String) (sym : Nat),
        split_plus desc = pre ++ w :: post →
        (∀ v ∈ pre, keysym_from_name v = none) →
        keysym_from_name w = some sym →
        ChordDesc.from_string desc modkey_mask
          = .ok ⟨sym, modmask_filter_ignore (chord_mods modkey_mask pre)⟩) ∧
    (ChordDesc.from_string "$modkey+Shift+q" 64 = .ok ⟨113, 65⟩) ∧
    (ChordDesc.from_string "abc" 64 = .error (.InvalidChord "abc")) := by
  refine ⟨?_, ?_, by decide, by decide⟩
  · intro desc modkey_mask
    unfold ChordDesc.from_string
    exact from_string_go_error_iff desc modkey_mask (split_plus desc) 0
  · intro desc modkey_mask pre w post sym hsplit hpre hw
    unfold ChordDesc.from_string
    rw [hsplit]
    exact from_string_go_ok desc modkey_mask w sym post hw pre 0 hpre

/-- Witness for C7 at concrete inputs. -/
theorem chord_from_string_witness :
    (ChordDesc.from_string "Shift+q" 64
        = .ok ⟨113, modmask_filter_ignore (chord_mods 64 ["Shift"])⟩) ∧
    (ChordDesc.from_string "Lock" 64 = .error (.InvalidChord "Lock")) :=
  ⟨chord_from_string_confirmed.2.1 "Shift+q" 64 ["Shift"] "q" [] 113 rfl (by decide) rfl,
   (chord_from_string_confirmed.1 "Lock" 64).mpr (by decide)⟩

end GabelWM
